import Mathlib

/-!
Verification of the embedding-and-index synchronization pipeline of the
destaquesgovbr data platform.

Each definition below is a shallow embedding of a function of the Python
source, translated clause by clause:

  * `chunked`               from src/data_platform/utils/batch.py, chunked
  * `sliceBatches`          the slice loop pattern
                            for i in range(0, len(xs), bs): batch = xs[i:i+bs]
                            used by EmbeddingGenerator.generate_embeddings and
                            TypesenseSyncManager.sync_embeddings
  * text preparation, response validation and run statistics from
                            src/data_platform/jobs/embeddings/embedding_generator.py
  * watermark resolution, candidate fetch, document assembly, vector decoding
                            and run statistics from
                            src/data_platform/jobs/embeddings/typesense_sync.py
  * de-duplication and ON CONFLICT behaviour of PostgresManager.insert from
                            src/data_platform/managers/postgres_manager.py
  * backend dispatch of StorageAdapter.insert and StorageAdapter.update from
                            src/data_platform/managers/storage_adapter.py

Timestamps are modelled as integers, machine floats appearing only as opaque
payloads are modelled as rationals, and the 32-bit float wire format of
pgvector is modelled at the level of bit patterns (naturals below 2 ^ 32).
-/

namespace DataPlatform

/-! ### batch.py: chunked -/

/-- Loop body of `chunked` in utils/batch.py: the running chunk `acc` receives
each item in turn and is emitted as soon as its length reaches `chunkSize`;
a non-empty leftover is emitted at the end. -/
def chunkedAux (chunkSize : Nat) : List α → List α → List (List α)
  | acc, [] => if acc.isEmpty then [] else [acc]
  | acc, x :: rest =>
    let acc2 := acc ++ [x]
    if chunkSize ≤ acc2.length then acc2 :: chunkedAux chunkSize [] rest
    else chunkedAux chunkSize acc2 rest

/-- `chunked(iterable, chunk_size)` from utils/batch.py. -/
def chunked (xs : List α) (chunkSize : Nat) : List (List α) :=
  chunkedAux chunkSize [] xs

/-! ### The slice loop `for i in range(0, len(xs), bs)` used by both pipelines -/

/-- Fuelled decomposition of a list into consecutive slices of `bs` elements,
mirroring `xs[i:i+bs]` for `i = 0, bs, 2*bs, ...`. The fuel is only a
termination device; `xs.length` units suffice whenever `1 ≤ bs`. -/
def sliceBatchesF : Nat → List α → Nat → List (List α)
  | 0, _, _ => []
  | _ + 1, [], _ => []
  | fuel + 1, xs, bs => xs.take bs :: sliceBatchesF fuel (xs.drop bs) bs

/-- The batches visited by `for i in range(0, len(xs), bs): batch = xs[i:i+bs]`. -/
def sliceBatches (xs : List α) (bs : Nat) : List (List α) :=
  sliceBatchesF xs.length xs bs

theorem sliceBatchesF_flatten {α : Type} (bs : Nat) (hbs : 1 ≤ bs) :
    ∀ (fuel : Nat) (xs : List α), xs.length ≤ fuel →
      (sliceBatchesF fuel xs bs).flatten = xs := by
  intro fuel
  induction fuel with
  | zero =>
    intro xs hxs
    have : xs = [] := List.eq_nil_of_length_eq_zero (Nat.le_zero.mp hxs)
    simp [this, sliceBatchesF]
  | succ n ih =>
    intro xs hxs
    cases xs with
    | nil => simp [sliceBatchesF]
    | cons a as =>
      have hdrop : ((a :: as).drop bs).length ≤ n := by
        rw [List.length_drop]
        have h1 : (a :: as).length - bs ≤ (a :: as).length - 1 :=
          Nat.sub_le_sub_left hbs _
        have h2 : (a :: as).length - 1 ≤ n := by
          simp only [List.length_cons] at hxs ⊢
          omega
        omega
      calc (sliceBatchesF (n + 1) (a :: as) bs).flatten
          = (a :: as).take bs ++ (sliceBatchesF n ((a :: as).drop bs) bs).flatten := by
            rfl
        _ = (a :: as).take bs ++ (a :: as).drop bs := by rw [ih _ hdrop]
        _ = a :: as := List.take_append_drop _ _

theorem sliceBatches_flatten {α : Type} (xs : List α) (bs : Nat) (hbs : 1 ≤ bs) :
    (sliceBatches xs bs).flatten = xs :=
  sliceBatchesF_flatten bs hbs xs.length xs (Nat.le_refl _)

theorem chunkedAux_nil {α : Type} (k : Nat) (acc : List α) :
    chunkedAux k acc [] = if acc.isEmpty then [] else [acc] := rfl

theorem chunkedAux_cons {α : Type} (k : Nat) (acc : List α) (x : α) (rest : List α) :
    chunkedAux k acc (x :: rest) =
      if k ≤ (acc ++ [x]).length then (acc ++ [x]) :: chunkedAux k [] rest
      else chunkedAux k (acc ++ [x]) rest := rfl

theorem chunkedAux_flatten {α : Type} (k : Nat) :
    ∀ (xs acc : List α), (chunkedAux k acc xs).flatten = acc ++ xs := by
  intro xs
  induction xs with
  | nil =>
    intro acc
    by_cases h : acc.isEmpty
    · simp [chunkedAux_nil, h, List.isEmpty_iff.mp h]
    · simp [chunkedAux_nil, h]
  | cons x rest ih =>
    intro acc
    rw [chunkedAux_cons]
    by_cases h : k ≤ (acc ++ [x]).length
    · rw [if_pos h, List.flatten_cons, ih []]
      simp
    · rw [if_neg h, ih (acc ++ [x])]
      simp

theorem chunkedAux_sizes {α : Type} (k : Nat) (hk : 1 ≤ k) :
    ∀ (xs acc : List α), acc.length < k →
      ∀ c ∈ chunkedAux k acc xs, c ≠ [] ∧ c.length ≤ k := by
  intro xs
  induction xs with
  | nil =>
    intro acc hacc c hc
    by_cases h : acc.isEmpty
    · rw [chunkedAux_nil, if_pos h] at hc
      simp at hc
    · rw [chunkedAux_nil, if_neg h] at hc
      simp only [List.mem_singleton] at hc
      subst hc
      exact ⟨fun hnil => h (by simp [hnil]), Nat.le_of_lt hacc⟩
  | cons x rest ih =>
    intro acc hacc c hc
    rw [chunkedAux_cons] at hc
    by_cases h : k ≤ (acc ++ [x]).length
    · rw [if_pos h, List.mem_cons] at hc
      rcases hc with hc | hc
      · subst hc
        refine ⟨by simp, ?_⟩
        simp only [List.length_append, List.length_singleton]
        omega
      · exact ih [] (by simpa using hk) c hc
    · rw [if_neg h] at hc
      exact ih (acc ++ [x]) (Nat.lt_of_not_le h) c hc

theorem chunkedAux_dropLast_full {α : Type} (k : Nat) (hk : 1 ≤ k) :
    ∀ (xs acc : List α), acc.length < k →
      ∀ c ∈ (chunkedAux k acc xs).dropLast, c.length = k := by
  intro xs
  induction xs with
  | nil =>
    intro acc hacc c hc
    by_cases h : acc.isEmpty
    · rw [chunkedAux_nil, if_pos h] at hc
      simp at hc
    · rw [chunkedAux_nil, if_neg h] at hc
      simp at hc
  | cons x rest ih =>
    intro acc hacc c hc
    rw [chunkedAux_cons] at hc
    by_cases h : k ≤ (acc ++ [x]).length
    · rw [if_pos h] at hc
      have hfull : (acc ++ [x]).length = k := by
        simp only [List.length_append, List.length_singleton] at h ⊢
        omega
      cases htail : chunkedAux k ([] : List α) rest with
      | nil => simp [htail] at hc
      | cons d ds =>
        rw [htail, List.dropLast_cons_of_ne_nil (by simp), List.mem_cons] at hc
        rcases hc with hc | hc
        · subst hc; exact hfull
        · exact ih [] (by simpa using hk) c (by rw [htail]; exact hc)
    · rw [if_neg h] at hc
      exact ih (acc ++ [x]) (Nat.lt_of_not_le h) c hc

/-- Claim C10: for every list `xs` and chunk size `k ≥ 1`, concatenating the
chunks produced by `chunked(xs, k)` yields exactly `xs` in order; every chunk
is non-empty with at most `k` elements, and every chunk except possibly the
last has exactly `k` elements. -/
theorem chunked_decomposition {α : Type} (xs : List α) (k : Nat) (hk : 1 ≤ k) :
    (chunked xs k).flatten = xs ∧
    (∀ c ∈ chunked xs k, c ≠ [] ∧ c.length ≤ k) ∧
    (∀ c ∈ (chunked xs k).dropLast, c.length = k) :=
  ⟨chunkedAux_flatten k xs [],
   chunkedAux_sizes k hk xs [] (by simpa using hk),
   chunkedAux_dropLast_full k hk xs [] (by simpa using hk)⟩

/-- Witness for C10 at `xs = [1,2,3,4,5]`, `k = 2`. -/
theorem chunked_decomposition_witness :
    (chunked [1, 2, 3, 4, 5] 2).flatten = [1, 2, 3, 4, 5] ∧
    (∀ c ∈ chunked [1, 2, 3, 4, 5] 2, c ≠ [] ∧ c.length ≤ 2) ∧
    (∀ c ∈ (chunked [1, 2, 3, 4, 5] 2).dropLast, c.length = 2) :=
  chunked_decomposition [1, 2, 3, 4, 5] 2 (by decide)

/-! ### embedding_generator.py: text preparation

Python strings are sequences of code points; `String` in Lean matches that,
with slicing modelled by `pySlice` (`s[:n]`) over the underlying char list
and `str.strip()` modelled by `String.trim`. `str.join` over the non-empty
parts is modelled literally by `pyJoin`. -/

/-- Python `s[:n]` over code points. -/
def pySlice (s : String) (n : Nat) : String := String.mk (s.data.take n)

/-- Python `s.strip()`: remove leading and trailing whitespace, modelled over
the char list so that it evaluates structurally. -/
def pyStrip (s : String) : String :=
  String.mk (((s.data.dropWhile Char.isWhitespace).reverse.dropWhile Char.isWhitespace).reverse)

/-- Python `sep.join(parts)`. -/
def pyJoin (sep : String) : List String → String
  | [] => ""
  | [x] => x
  | x :: y :: rest => x ++ sep ++ pyJoin sep (y :: rest)

/-- MAX_TEXT_LENGTH from EmbeddingGenerator. -/
def MAX_TEXT_LENGTH : Nat := 512

/-- The final hard cap of `_prepare_text_for_embedding`:
`if len(text) > MAX_TEXT_LENGTH * 4: text = text[:MAX_TEXT_LENGTH * 4]`. -/
def capTextLength (text : String) : String :=
  if MAX_TEXT_LENGTH * 4 < text.length then pySlice text (MAX_TEXT_LENGTH * 4) else text

/-- The first element of `text_parts`: `title.strip() if title else ""`. -/
def titleInit (title : String) : String := if title = "" then "" else pyStrip title

/-- The `elif content and content.strip()` fallback branch of
`_prepare_text_for_embedding`: append the first 500 characters of the
stripped content when it is non-empty. -/
def fallbackParts (title : String) (content : Option String) : List String :=
  match content with
  | some c =>
    if pyStrip c = "" then [titleInit title]
    else [titleInit title, pySlice (pyStrip c) 500]
  | none => [titleInit title]

/-- The `text_parts` list built by `_prepare_text_for_embedding`: the summary
branch `if summary and summary.strip()` wins, otherwise the content branch. -/
def prepareParts (title : String) (summary content : Option String) : List String :=
  match summary with
  | some s =>
    if pyStrip s = "" then fallbackParts title content
    else [titleInit title, pyStrip s]
  | none => fallbackParts title content

/-- `EmbeddingGenerator._prepare_text_for_embedding(title, summary, content)`.
`summary` and `content` are nullable columns, hence `Option`; the Python
truthiness tests `if summary and summary.strip()` and
`elif content and content.strip()` become matches on `Option` plus a test
that the trimmed string is non-empty (a non-empty trim implies the raw
string was non-empty). The parts are joined by
`" ".join(part for part in text_parts if part)` and hard capped. -/
def prepareTextForEmbedding (title : String) (summary content : Option String) : String :=
  capTextLength (pyJoin " " ((prepareParts title summary content).filter (fun p => p ≠ "")))

/-- Spec-side assembly: join two fragments with a single separating space,
dropping an empty fragment. -/
def joinNonempty (a b : String) : String :=
  if a = "" then b else if b = "" then a else a ++ " " ++ b

theorem prepareParts_some (title s : String) (content : Option String) :
    prepareParts title (some s) content =
      if pyStrip s = "" then fallbackParts title content
      else [titleInit title, pyStrip s] := rfl

theorem prepareParts_none (title : String) (content : Option String) :
    prepareParts title none content = fallbackParts title content := rfl

theorem fallbackParts_some (title c : String) :
    fallbackParts title (some c) =
      if pyStrip c = "" then [titleInit title]
      else [titleInit title, pySlice (pyStrip c) 500] := rfl

theorem fallbackParts_none (title : String) :
    fallbackParts title none = [titleInit title] := rfl

theorem titleInit_eq (title : String) : titleInit title = pyStrip title := by
  unfold titleInit
  by_cases h : title = ""
  · subst h; decide
  · rw [if_neg h]

theorem pyJoin_pair (a b : String) :
    pyJoin " " ([a, b].filter (fun p => p ≠ "")) = joinNonempty a b := by
  by_cases ha : a = "" <;> by_cases hb : b = "" <;>
    simp [ha, hb, pyJoin, joinNonempty]

theorem pyJoin_single (a : String) :
    pyJoin " " ([a].filter (fun p => p ≠ "")) = a := by
  by_cases ha : a = "" <;> simp [ha, pyJoin]

theorem capTextLength_le (text : String) : (capTextLength text).length ≤ 2048 := by
  unfold capTextLength pySlice
  by_cases h : MAX_TEXT_LENGTH * 4 < text.length
  · rw [if_pos h]
    show (text.data.take (MAX_TEXT_LENGTH * 4)).length ≤ 2048
    rw [List.length_take]
    exact le_trans (Nat.min_le_left _ _) (by norm_num [MAX_TEXT_LENGTH])
  · rw [if_neg h]
    push_neg at h
    exact le_trans h (by norm_num [MAX_TEXT_LENGTH])

/-- Counterexample to claim C3 as stated: the source trims the title before
assembling, so for `title = " T "` and `summary = "S"` the prepared text is
`"T S"` and not `title + " " + summary = " T  S"`. -/
theorem prepare_text_claim_counterexample :
    prepareTextForEmbedding " T " (some "S") none = "T S" ∧
    " T " ++ " " ++ "S" ≠ "T S" := by
  constructor
  · decide
  · decide

set_option maxRecDepth 16384 in
/-- Claim C3, amended: the prepared embedding text joins the trimmed title
with the trimmed summary when the summary is non-empty after trimming, and
otherwise with the first 500 characters of the trimmed body; empty fragments
are dropped rather than joined with a dangling space; the result is hard
capped at MAX_TEXT_LENGTH * 4 = 2048 characters; and on the spec examples,
`("T", "S")` yields `"T S"` and `("T", None, "C"*1000)` yields a string
starting with `"T "` of length at most `len("T") + 1 + 500`. -/
theorem prepare_text_assembly (title : String) (summary content : Option String) :
    (∀ s, summary = some s → pyStrip s ≠ "" →
      prepareTextForEmbedding title summary content
        = capTextLength (joinNonempty (pyStrip title) (pyStrip s))) ∧
    ((match summary with | some s => pyStrip s = "" | none => True) →
      ∀ c, content = some c → pyStrip c ≠ "" →
      prepareTextForEmbedding title summary content
        = capTextLength (joinNonempty (pyStrip title) (pySlice (pyStrip c) 500))) ∧
    ((match summary with | some s => pyStrip s = "" | none => True) →
      (match content with | some c => pyStrip c = "" | none => True) →
      prepareTextForEmbedding title summary content = capTextLength (pyStrip title)) ∧
    (prepareTextForEmbedding title summary content).length ≤ 2048 ∧
    prepareTextForEmbedding "T" (some "S") none = "T S" ∧
    pySlice (prepareTextForEmbedding "T" none (some (String.mk (List.replicate 1000 'C')))) 2
      = "T " ∧
    (prepareTextForEmbedding "T" none (some (String.mk (List.replicate 1000 'C')))).length
      ≤ "T".length + 1 + 500 := by
  refine ⟨?_, ?_, ?_, capTextLength_le _, by decide, by decide, by decide⟩
  · intro s hs hstrip
    subst hs
    unfold prepareTextForEmbedding
    rw [prepareParts_some, if_neg hstrip, titleInit_eq, pyJoin_pair]
  · intro hsum c hc hstrip
    subst hc
    unfold prepareTextForEmbedding
    cases summary with
    | none =>
      rw [prepareParts_none, fallbackParts_some, if_neg hstrip, titleInit_eq, pyJoin_pair]
    | some s =>
      simp only at hsum
      rw [prepareParts_some, if_pos hsum, fallbackParts_some, if_neg hstrip,
        titleInit_eq, pyJoin_pair]
  · intro hsum hcont
    unfold prepareTextForEmbedding
    cases summary with
    | none =>
      cases content with
      | none => rw [prepareParts_none, fallbackParts_none, titleInit_eq, pyJoin_single]
      | some c =>
        simp only at hcont
        rw [prepareParts_none, fallbackParts_some, if_pos hcont, titleInit_eq, pyJoin_single]
    | some s =>
      simp only at hsum
      cases content with
      | none =>
        rw [prepareParts_some, if_pos hsum, fallbackParts_none, titleInit_eq, pyJoin_single]
      | some c =>
        simp only at hcont
        rw [prepareParts_some, if_pos hsum, fallbackParts_some, if_pos hcont,
          titleInit_eq, pyJoin_single]

/-- Witness for the amended C3 at `title = "a"`, `summary = " x "`. -/
theorem prepare_text_assembly_witness :
    prepareTextForEmbedding "a" (some " x ") none
      = capTextLength (joinNonempty (pyStrip "a") (pyStrip " x ")) :=
  (prepare_text_assembly "a" (some " x ") none).1 " x " rfl (by decide)

/-! ### embedding_generator.py: response validation in _generate_embeddings_batch

The source builds `np.array(result["embeddings"], dtype=np.float32)` and
checks only `embeddings.shape[1] != EMBEDDING_DIM`. `npShape1` models what
`shape[1]` observes: `none` when the nested list is empty (shape is then
one-dimensional and `shape[1]` raises IndexError) or ragged (`np.array`
raises), otherwise the common row width. Individual float values are opaque
here, so rows are lists of rationals. -/

/-- EMBEDDING_DIM from EmbeddingGenerator. -/
def EMBEDDING_DIM : Nat := 768

/-- The width `np.array(rows).shape[1]` when it is defined. -/
def npShape1 (rows : List (List ℚ)) : Option Nat :=
  match rows with
  | [] => none
  | r :: rest => if rest.all (fun q => q.length = r.length) then some r.length else none

/-- Failure modes of `_generate_embeddings_batch` after a 2xx response. -/
inductive EmbedErr where
  | missingKey
  | badShape
  | dimensionMismatch (d : Nat)
deriving DecidableEq

/-- The response handling of `_generate_embeddings_batch`: reject a body with
no `embeddings` key, reject when `shape[1]` is undefined, reject when the row
width differs from 768, and otherwise accept. The input `texts` list is
carried as in the source, which never compares the response row count
against it. -/
def validateEmbeddingsBatch (texts : List String) (resp : Option (List (List ℚ))) :
    Except EmbedErr (List (List ℚ)) :=
  match texts, resp with
  | _, none => .error .missingKey
  | _, some rows =>
    match npShape1 rows with
    | none => .error .badShape
    | some d => if d ≠ EMBEDDING_DIM then .error (.dimensionMismatch d) else .ok rows

set_option maxRecDepth 16384 in
/-- Counterexample to claim C2 as stated: a response holding a single
768-wide row for a two-text batch passes validation even though the row
count (1) differs from the input count (2); the source never checks
`shape[0]` against `len(texts)`. -/
theorem validate_embeddings_counterexample :
    validateEmbeddingsBatch ["a", "b"] (some [List.replicate 768 (0 : ℚ)])
      = Except.ok [List.replicate 768 (0 : ℚ)] ∧
    [List.replicate 768 (0 : ℚ)].length ≠ ["a", "b"].length := by
  constructor
  · rfl
  · decide

theorem npShape1_cons (r : List ℚ) (rest : List (List ℚ)) :
    npShape1 (r :: rest) =
      if rest.all (fun q => q.length = r.length) then some r.length else none := rfl

theorem npShape1_eq_some_iff (rows : List (List ℚ)) (d : Nat) :
    npShape1 rows = some d ↔ rows ≠ [] ∧ ∀ r ∈ rows, r.length = d := by
  cases rows with
  | nil => simp [npShape1]
  | cons r rest =>
    rw [npShape1_cons]
    by_cases h : rest.all (fun q => q.length = r.length) = true
    · rw [if_pos h]
      simp only [List.all_eq_true, decide_eq_true_eq] at h
      constructor
      · intro hd
        refine ⟨by simp, ?_⟩
        intro q hq
        rcases List.mem_cons.mp hq with hq | hq
        · subst hq; exact Option.some.inj hd
        · rw [h q hq]; exact Option.some.inj hd
      · intro ⟨_, hall⟩
        rw [hall r (by simp)]
    · rw [if_neg h]
      simp only [List.all_eq_true, decide_eq_true_eq] at h
      constructor
      · intro hfalse; exact absurd hfalse (by simp)
      · intro ⟨_, hall⟩
        exact absurd (fun q hq => by rw [hall q (List.mem_cons_of_mem _ hq), hall r (by simp)]) h

theorem validateEmbeddingsBatch_some (texts : List String) (rows : List (List ℚ)) :
    validateEmbeddingsBatch texts (some rows) =
      match npShape1 rows with
      | none => .error .badShape
      | some d => if d ≠ EMBEDDING_DIM then .error (.dimensionMismatch d) else .ok rows := rfl

/-- Claim C2, amended: after a 2xx response, the batch fails when the
`embeddings` key is missing, when the array is empty or ragged (shape error),
or when the common row width differs from 768; it succeeds exactly when the
rows are non-empty, rectangular, and 768 wide. The row count is never
compared against the number of input texts: validation is entirely
independent of the `texts` argument. -/
theorem validate_embeddings_batch_rules (texts : List String)
    (rows : List (List ℚ)) :
    validateEmbeddingsBatch texts none = .error .missingKey ∧
    (validateEmbeddingsBatch texts (some rows) = .ok rows ↔
      rows ≠ [] ∧ ∀ r ∈ rows, r.length = 768) ∧
    (∀ texts2, validateEmbeddingsBatch texts (some rows)
      = validateEmbeddingsBatch texts2 (some rows)) := by
  refine ⟨rfl, ?_, fun texts2 => rfl⟩
  cases hs : npShape1 rows with
  | none =>
    have hval : validateEmbeddingsBatch texts (some rows) = .error .badShape := by
      rw [validateEmbeddingsBatch_some, hs]
    rw [hval]
    constructor
    · intro h; cases h
    · intro ⟨hne, hall⟩
      have h768 : npShape1 rows = some 768 := (npShape1_eq_some_iff rows 768).mpr ⟨hne, hall⟩
      rw [hs] at h768
      cases h768
  | some d =>
    have hval : validateEmbeddingsBatch texts (some rows)
        = if d ≠ EMBEDDING_DIM then .error (.dimensionMismatch d) else .ok rows := by
      rw [validateEmbeddingsBatch_some, hs]
    rw [hval]
    by_cases hd : d = EMBEDDING_DIM
    · rw [if_neg (by simp [hd])]
      constructor
      · intro _
        have := (npShape1_eq_some_iff rows d).mp hs
        exact ⟨this.1, fun r hr => (this.2 r hr).trans hd⟩
      · intro _; rfl
    · rw [if_pos hd]
      constructor
      · intro h; cases h
      · intro ⟨hne, hall⟩
        have h768 : npShape1 rows = some 768 := (npShape1_eq_some_iff rows 768).mpr ⟨hne, hall⟩
        rw [hs] at h768
        exact absurd (Option.some.inj h768) hd

/-! ### Data model shared by both pipelines

A `news` row as observed through psycopg2. The `content_embedding` column
arrives as NULL, a JSON-like string, a bytes/memoryview value, or an
in-memory list, captured by `PgVal`; any other Python type is `vother`
carrying only its truthiness. Timestamps carry their epoch seconds together
with the calendar year and month the datetime exposes. -/

/-- A timestamp value: epoch seconds plus the `.year`/`.month` accessors of
the Python datetime. -/
structure Timestamp where
  epoch : Int
  year : Int
  month : Int
deriving DecidableEq

/-- The possible runtime shapes of the `content_embedding` column value. -/
inductive PgVal where
  | vnull
  | vstr (s : String)
  | vbytes (bs : List Nat)
  | vlist (xs : List ℚ)
  | vother (truthy : Bool)
deriving DecidableEq


/-- The optional string fields listed in `_prepare_typesense_document`. -/
inductive TsField where
  | agency_key | title | url | image_url | category
  | content | summary | subtitle | editorial_lead
  | theme_l1_code | theme_l1_label
  | theme_l2_code | theme_l2_label
  | theme_l3_code | theme_l3_label
  | most_specific_theme_code | most_specific_theme_label
deriving DecidableEq

/-- A `news` row with the columns the two pipelines read. -/
structure NewsRow where
  id : Int := 0
  unique_id : String := ""
  agency_key : Option String := none
  agency_name : Option String := none
  title : Option String := none
  url : Option String := none
  image_url : Option String := none
  category : Option String := none
  content : Option String := none
  summary : Option String := none
  subtitle : Option String := none
  editorial_lead : Option String := none
  theme_l1_code : Option String := none
  theme_l1_label : Option String := none
  theme_l2_code : Option String := none
  theme_l2_label : Option String := none
  theme_l3_code : Option String := none
  theme_l3_label : Option String := none
  most_specific_theme_code : Option String := none
  most_specific_theme_label : Option String := none
  published_at : Option Timestamp := none
  extracted_at : Option Timestamp := none
  content_embedding : PgVal := PgVal.vnull
  embedding_generated_at : Option Int := none
deriving DecidableEq

/-- Dispatch of `news.get(field)` for the optional Typesense fields. -/
def NewsRow.getField (r : NewsRow) : TsField → Option String
  | .agency_key => r.agency_key
  | .title => r.title
  | .url => r.url
  | .image_url => r.image_url
  | .category => r.category
  | .content => r.content
  | .summary => r.summary
  | .subtitle => r.subtitle
  | .editorial_lead => r.editorial_lead
  | .theme_l1_code => r.theme_l1_code
  | .theme_l1_label => r.theme_l1_label
  | .theme_l2_code => r.theme_l2_code
  | .theme_l2_label => r.theme_l2_label
  | .theme_l3_code => r.theme_l3_code
  | .theme_l3_label => r.theme_l3_label
  | .most_specific_theme_code => r.most_specific_theme_code
  | .most_specific_theme_label => r.most_specific_theme_label

/-- Seconds per day, for the `end_date::date + INTERVAL 1 day` bound. -/
def oneDay : Int := 86400

/-- Epoch seconds of 2025-01-01T00:00:00Z, the literal in the Phase 4.7
filter `published_at >= 2025-01-01`. -/
def jan2025Epoch : Int := 1735689600

/-- Python `if limit:` guarding the LIMIT clause: a limit of 0 (or None) is
falsy, so no LIMIT is applied. -/
def pyLimit (limit : Option Nat) (xs : List α) : List α :=
  match limit with
  | none => xs
  | some n => if n = 0 then xs else xs.take n

/-- Sort key for `ORDER BY published_at DESC`. -/
def pubKey (r : NewsRow) : Int :=
  match r.published_at with
  | some t => t.epoch
  | none => 0

/-- Stable insertion of a row into a descending-ordered list. -/
def insertDesc (r : NewsRow) : List NewsRow → List NewsRow
  | [] => [r]
  | x :: xs => if pubKey x < pubKey r then r :: x :: xs else x :: insertDesc r xs

/-- `ORDER BY published_at DESC` as a stable insertion sort. -/
def sortByPublishedDesc (rows : List NewsRow) : List NewsRow :=
  rows.foldr insertDesc []

theorem insertDesc_length (r : NewsRow) (xs : List NewsRow) :
    (insertDesc r xs).length = xs.length + 1 := by
  induction xs with
  | nil => rfl
  | cons x rest ih =>
    unfold insertDesc
    by_cases h : pubKey x < pubKey r
    · rw [if_pos h]; rfl
    · rw [if_neg h]
      simp [ih]

theorem sortByPublishedDesc_length (rows : List NewsRow) :
    (sortByPublishedDesc rows).length = rows.length := by
  unfold sortByPublishedDesc
  induction rows with
  | nil => rfl
  | cons r rest ih =>
    simp only [List.foldr_cons, insertDesc_length, ih, List.length_cons]

theorem mem_insertDesc (a r : NewsRow) (xs : List NewsRow) :
    a ∈ insertDesc r xs ↔ a = r ∨ a ∈ xs := by
  induction xs with
  | nil => simp [insertDesc]
  | cons x rest ih =>
    unfold insertDesc
    by_cases h : pubKey x < pubKey r
    · rw [if_pos h]
      simp only [List.mem_cons]
    · rw [if_neg h]
      simp only [List.mem_cons, ih]
      tauto

theorem mem_sortByPublishedDesc (a : NewsRow) (rows : List NewsRow) :
    a ∈ sortByPublishedDesc rows ↔ a ∈ rows := by
  unfold sortByPublishedDesc
  induction rows with
  | nil => simp
  | cons r rest ih =>
    simp only [List.foldr_cons, mem_insertDesc, ih, List.mem_cons]

/-- The WHERE clause of `_fetch_news_without_embeddings`:
`published_at >= start AND published_at < end + 1 day AND
content_embedding IS NULL` (a NULL `published_at` satisfies no comparison). -/
def withoutEmbeddingsCond (startD endD : Int) (r : NewsRow) : Bool :=
  match r.published_at with
  | some t =>
    decide (startD ≤ t.epoch) && decide (t.epoch < endD + oneDay) &&
      decide (r.content_embedding = PgVal.vnull)
  | none => false

/-- `EmbeddingGenerator._fetch_news_without_embeddings`. -/
def fetchNewsWithoutEmbeddings (rows : List NewsRow) (startD endD : Int)
    (limit : Option Nat) : List NewsRow :=
  pyLimit limit (sortByPublishedDesc (rows.filter (withoutEmbeddingsCond startD endD)))

/-- The fixed WHERE clause of `_fetch_news_with_new_embeddings`:
date window, `content_embedding IS NOT NULL`, and the Phase 4.7 floor
`published_at >= 2025-01-01`. -/
def withEmbeddingsCond (startD endD : Int) (r : NewsRow) : Bool :=
  match r.published_at with
  | some t =>
    decide (startD ≤ t.epoch) && decide (t.epoch < endD + oneDay) &&
      !(decide (r.content_embedding = PgVal.vnull)) &&
      decide (jan2025Epoch ≤ t.epoch)
  | none => false

/-- The optional incremental clause
`AND embedding_generated_at > last_sync_timestamp` (NULL compares false). -/
def watermarkCond (wm : Option Int) (r : NewsRow) : Bool :=
  match wm with
  | none => true
  | some t0 =>
    match r.embedding_generated_at with
    | some g => decide (t0 < g)
    | none => false

/-- `TypesenseSyncManager._fetch_news_with_new_embeddings`. -/
def fetchNewsWithNewEmbeddings (rows : List NewsRow) (startD endD : Int)
    (wm : Option Int) (limit : Option Nat) : List NewsRow :=
  pyLimit limit (sortByPublishedDesc
    (rows.filter (fun r => withEmbeddingsCond startD endD r && watermarkCond wm r)))

/-- A row of the `sync_log` table. -/
structure SyncLogEntry where
  operation : String
  status : String
  completed_at : Int
deriving DecidableEq

/-- The timestamps eligible for the watermark query:
`operation = typesense_embeddings_sync AND status = completed`. -/
def syncLogTimes (log : List SyncLogEntry) : List Int :=
  log.filterMap (fun e =>
    if e.operation = "typesense_embeddings_sync" ∧ e.status = "completed"
    then some e.completed_at else none)

/-- `TypesenseSyncManager._get_last_sync_timestamp`: the SQL
`ORDER BY completed_at DESC LIMIT 1` returns the maximum eligible
`completed_at`, or None when no eligible row exists. -/
def getLastSyncTimestamp (log : List SyncLogEntry) : Option Int :=
  (syncLogTimes log).max?

/-! ### typesense_sync.py: decoding the stored vector

A pgvector column value read as a string looks like a JSON array of numbers,
so `json.loads` is modelled by a parser for exactly that fragment (numbers
with optional sign, fraction and exponent), producing exact decimal
rationals. The binary form is a 2-byte big-endian dimension header followed
by that many 4-byte big-endian IEEE-754 binary32 floats; bytes are naturals
below 256 and a float is handled as its 32-bit pattern, whose numeric value
is `f32ToRat`. -/

/-- Drop leading JSON whitespace. -/
def skipWs (cs : List Char) : List Char :=
  cs.dropWhile (fun c => c = ' ' ∨ c = '\t' ∨ c = '\n' ∨ c = '\r')

/-- Digits to a natural number, most significant first. -/
def digitsToNat (ds : List Char) : Nat :=
  ds.foldl (fun n c => n * 10 + (c.toNat - 48)) 0

/-- Parse an optional exponent suffix after a JSON number. -/
def parseExpPart (v : ℚ) (cs : List Char) : Option (ℚ × List Char) :=
  match cs with
  | c :: rest =>
    if c = 'e' ∨ c = 'E' then
      let signedRest : Bool × List Char :=
        match rest with
        | '-' :: r => (true, r)
        | '+' :: r => (false, r)
        | _ => (false, rest)
      let eds := signedRest.2.takeWhile Char.isDigit
      if eds.isEmpty then none
      else
        let e : ℤ :=
          if signedRest.1 then -(digitsToNat eds : ℤ) else (digitsToNat eds : ℤ)
        some (v * (10 : ℚ) ^ e, signedRest.2.drop eds.length)
    else some (v, cs)
  | [] => some (v, [])

/-- Parse one JSON number (sign, integer part, optional fraction, optional
exponent) as an exact rational. -/
def parseNumber (cs : List Char) : Option (ℚ × List Char) :=
  let signed : ℚ × List Char :=
    match cs with
    | '-' :: rest => (-1, rest)
    | _ => (1, cs)
  let ids := signed.2.takeWhile Char.isDigit
  if ids.isEmpty then none
  else
    let cs2 := signed.2.drop ids.length
    let ipart : ℚ := (digitsToNat ids : ℚ)
    match cs2 with
    | '.' :: rest =>
      let fds := rest.takeWhile Char.isDigit
      if fds.isEmpty then none
      else
        parseExpPart
          (signed.1 * (ipart + (digitsToNat fds : ℚ) / (10 : ℚ) ^ fds.length))
          (rest.drop fds.length)
    | _ => parseExpPart (signed.1 * ipart) cs2

/-- Parse a comma-separated list of JSON numbers; the fuel only bounds the
recursion and one unit per remaining character suffices. -/
def parseElemsAux : Nat → List Char → Option (List ℚ × List Char)
  | 0, _ => none
  | fuel + 1, cs =>
    match parseNumber (skipWs cs) with
    | none => none
    | some (q, cs1) =>
      match skipWs cs1 with
      | ',' :: rest =>
        match parseElemsAux fuel rest with
        | some (qs, cs2) => some (q :: qs, cs2)
        | none => none
      | cs2 => some ([q], cs2)

/-- The fragment of `json.loads` that a pgvector text value exercises: a
flat array of numbers. Any other input is a parse failure, which in the
source surfaces as an exception from `json.loads`. -/
def parseJsonNumArray (s : String) : Option (List ℚ) :=
  match skipWs s.data with
  | '[' :: rest =>
    match skipWs rest with
    | ']' :: rest2 => if (skipWs rest2).isEmpty then some [] else none
    | cs =>
      match parseElemsAux (cs.length + 1) cs with
      | some (qs, cs2) =>
        match skipWs cs2 with
        | ']' :: rest3 => if (skipWs rest3).isEmpty then some qs else none
        | _ => none
      | none => none
  | _ => none

/-- Numeric value of an IEEE-754 binary32 bit pattern, as an exact rational.
Infinities and NaN (exponent 255) do not occur in pgvector payloads and are
mapped to 0. -/
def f32ToRat (p : Nat) : ℚ :=
  let sign : Nat := p / 2 ^ 31
  let expo : Nat := p / 2 ^ 23 % 256
  let frac : Nat := p % 2 ^ 23
  let mag : ℚ :=
    if expo = 255 then 0
    else if expo = 0 then (frac : ℚ) / 2 ^ 149
    else ((2 ^ 23 + frac : ℕ) : ℚ) * (2 : ℚ) ^ ((expo : ℤ) - 150)
  if sign = 1 then -mag else mag

/-- Group a byte list into big-endian 4-byte words; fails when the length is
not a multiple of 4 (struct.unpack error). -/
def group4 : List Nat → Option (List Nat)
  | [] => some []
  | b0 :: b1 :: b2 :: b3 :: rest =>
    match group4 rest with
    | some ps => some ((((b0 * 256 + b1) * 256 + b2) * 256 + b3) :: ps)
    | none => none
  | _ => none

/-- Decode the pgvector binary form: `struct.unpack` of a 2-byte big-endian
dimension followed by exactly `dim` big-endian 4-byte floats; any length
mismatch is a struct error. -/
def decodeVectorBytes (bs : List Nat) : Option (List Nat) :=
  match bs with
  | b0 :: b1 :: rest =>
    let dim := b0 * 256 + b1
    if rest.length = 4 * dim then group4 rest else none
  | _ => none

/-- Big-endian bytes of a 32-bit pattern. -/
def bytesOfPattern (p : Nat) : List Nat :=
  [p / 2 ^ 24 % 256, p / 2 ^ 16 % 256, p / 2 ^ 8 % 256, p % 256]

/-- Modelled from the spec: the binary header+payload encoding of a float32
vector (2-byte big-endian dimension, then each float as 4 big-endian
bytes). The repository only decodes this pgvector wire format; the encoder
is stated here so the round trip can be expressed. -/
def encodeVectorBytes (pats : List Nat) : List Nat :=
  (pats.length / 256 % 256) :: (pats.length % 256) :: (pats.map bytesOfPattern).flatten

/-- The `content_embedding` handling block of `_prepare_typesense_document`:
the Python truthiness guard `if news.get(content_embedding):` drops NULL,
empty strings, empty byte strings, empty lists and falsy unknown values, all
distributed here over the constructors. Truthy strings go through
`json.loads`; truthy bytes and memoryview values go through the struct-based
binary decoding; lists pass through; a truthy value of any other type logs a
warning and yields None; finally `if embedding_list:` omits an empty decoded
list. Exceptions from `json.loads` or `struct.unpack` propagate (error
value). -/
def decodeContentEmbedding (v : PgVal) : Except Unit (Option (List ℚ)) :=
  match v with
  | .vnull => .ok none
  | .vother _ => .ok none
  | .vstr s =>
    if s.data.isEmpty then .ok none
    else
      match parseJsonNumArray s with
      | some xs => .ok (if xs.isEmpty then none else some xs)
      | none => .error ()
  | .vbytes bs =>
    if bs.isEmpty then .ok none
    else
      match decodeVectorBytes bs with
      | some pats => .ok (if (pats.map f32ToRat).isEmpty then none
          else some (pats.map f32ToRat))
      | none => .error ()
  | .vlist xs =>
    if xs.isEmpty then .ok none
    else .ok (if xs.isEmpty then none else some xs)

instance {ε α : Type} [DecidableEq ε] [DecidableEq α] : DecidableEq (Except ε α) :=
  fun x y =>
    match x, y with
    | .ok a, .ok b =>
      if h : a = b then isTrue (by rw [h]) else isFalse (by intro hc; cases hc; exact h rfl)
    | .error e, .error f =>
      if h : e = f then isTrue (by rw [h]) else isFalse (by intro hc; cases hc; exact h rfl)
    | .ok _, .error _ => isFalse (by intro hc; cases hc)
    | .error _, .ok _ => isFalse (by intro hc; cases hc)

theorem group4_encode (pats : List Nat) (h32 : ∀ p ∈ pats, p < 2 ^ 32) :
    group4 ((pats.map bytesOfPattern).flatten) = some pats := by
  induction pats with
  | nil => rfl
  | cons p ps ih =>
    have hp : p < 2 ^ 32 := h32 p (by simp)
    have hrest := ih (fun q hq => h32 q (List.mem_cons_of_mem _ hq))
    have hre : (((p / 2 ^ 24 % 256) * 256 + p / 2 ^ 16 % 256) * 256 + p / 2 ^ 8 % 256) * 256
        + p % 256 = p := by omega
    calc group4 ((List.map bytesOfPattern (p :: ps)).flatten)
        = (match group4 ((ps.map bytesOfPattern).flatten) with
          | some qs => some ((((((p / 2 ^ 24 % 256) * 256 + p / 2 ^ 16 % 256) * 256
              + p / 2 ^ 8 % 256) * 256) + p % 256) :: qs)
          | none => none) := rfl
      _ = some ((((((p / 2 ^ 24 % 256) * 256 + p / 2 ^ 16 % 256) * 256
              + p / 2 ^ 8 % 256) * 256) + p % 256) :: ps) := by rw [hrest]
      _ = some (p :: ps) := by rw [hre]

theorem encode_payload_length (pats : List Nat) :
    ((pats.map bytesOfPattern).flatten).length = 4 * pats.length := by
  induction pats with
  | nil => rfl
  | cons p ps ih =>
    show (bytesOfPattern p ++ (ps.map bytesOfPattern).flatten).length = 4 * (ps.length + 1)
    rw [List.length_append, ih]
    show 4 + 4 * ps.length = 4 * (ps.length + 1)
    ring

theorem decode_encode_bytes (pats : List Nat) (h32 : ∀ p ∈ pats, p < 2 ^ 32)
    (hlen : pats.length < 2 ^ 16) :
    decodeVectorBytes (encodeVectorBytes pats) = some pats := by
  show (if ((pats.map bytesOfPattern).flatten).length
        = 4 * ((pats.length / 256 % 256) * 256 + pats.length % 256)
      then group4 ((pats.map bytesOfPattern).flatten) else none) = some pats
  have hdim : (pats.length / 256 % 256) * 256 + pats.length % 256 = pats.length := by
    omega
  rw [hdim, encode_payload_length, if_pos rfl]
  exact group4_encode pats h32

theorem parse_example_symbolic :
    parseJsonNumArray "[1.0,2.0,3.0]" = some
      [1 * ((digitsToNat ['1'] : ℚ) + (digitsToNat ['0'] : ℚ) / 10 ^ 1),
       1 * ((digitsToNat ['2'] : ℚ) + (digitsToNat ['0'] : ℚ) / 10 ^ 1),
       1 * ((digitsToNat ['3'] : ℚ) + (digitsToNat ['0'] : ℚ) / 10 ^ 1)] := rfl

theorem decode_vstr (s : String) (xs : List ℚ)
    (hp : parseJsonNumArray s = some xs) (hxs : xs ≠ []) :
    decodeContentEmbedding (PgVal.vstr s) = .ok (some xs) := by
  have hne : s.data.isEmpty = false := by
    cases hb : s.data.isEmpty with
    | false => rfl
    | true =>
      have hdata : s.data = [] := List.isEmpty_iff.mp hb
      have hnone : parseJsonNumArray s = none := by
        unfold parseJsonNumArray
        rw [hdata]
        rfl
      rw [hnone] at hp
      cases hp
  show (if s.data.isEmpty then Except.ok none
    else match parseJsonNumArray s with
      | some ys => Except.ok (if ys.isEmpty then none else some ys)
      | none => Except.error ()) = Except.ok (some xs)
  rw [hne, if_neg (by simp), hp]
  show Except.ok (if xs.isEmpty then none else some xs) = Except.ok (some xs)
  rw [if_neg (by simp [List.isEmpty_iff, hxs])]

/-- Claim C6: the stored-vector decoder accepts a JSON-encoded string, an
in-memory list, and the binary 2-byte big-endian dimension header followed
by 4-byte big-endian floats, all normalizing to a flat numeric list;
encoding any 3-float vector into the binary form and decoding it reproduces
the original float values exactly (hence within tolerance); and a value of
any other type yields an omitted field, not an error. -/
theorem vector_decoding_representations :
    decodeContentEmbedding (PgVal.vstr "[1.0,2.0,3.0]")
      = .ok (some [(1 : ℚ), 2, 3]) ∧
    (∀ xs : List ℚ, xs ≠ [] →
      decodeContentEmbedding (PgVal.vlist xs) = .ok (some xs)) ∧
    (∀ pats : List Nat, pats.length = 3 → (∀ p ∈ pats, p < 2 ^ 32) →
      decodeContentEmbedding (PgVal.vbytes (encodeVectorBytes pats))
        = .ok (some (pats.map f32ToRat))) ∧
    (∀ b, decodeContentEmbedding (PgVal.vother b) = .ok none) := by
  refine ⟨?_, ?_, ?_, fun b => rfl⟩
  · have hvals :
        [1 * ((digitsToNat ['1'] : ℚ) + (digitsToNat ['0'] : ℚ) / 10 ^ 1),
         1 * ((digitsToNat ['2'] : ℚ) + (digitsToNat ['0'] : ℚ) / 10 ^ 1),
         1 * ((digitsToNat ['3'] : ℚ) + (digitsToNat ['0'] : ℚ) / 10 ^ 1)]
          = [(1 : ℚ), 2, 3] := by
      have h1 : digitsToNat ['1'] = 1 := rfl
      have h2 : digitsToNat ['2'] = 2 := rfl
      have h3 : digitsToNat ['3'] = 3 := rfl
      have h0 : digitsToNat ['0'] = 0 := rfl
      rw [h1, h2, h3, h0]
      norm_num
    have hp := parse_example_symbolic
    rw [hvals] at hp
    exact decode_vstr _ _ hp (by simp)
  · intro xs hxs
    cases xs with
    | nil => exact absurd rfl hxs
    | cons a t => rfl
  · intro pats hlen h32
    have hne : pats.map f32ToRat ≠ [] := by
      intro hcontra
      have := congrArg List.length hcontra
      simp [hlen] at this
    have hdec := decode_encode_bytes pats h32 (by rw [hlen]; norm_num)
    show (if (encodeVectorBytes pats).isEmpty then Except.ok none
      else match decodeVectorBytes (encodeVectorBytes pats) with
        | some pts => Except.ok (if (pts.map f32ToRat).isEmpty then none
            else some (pts.map f32ToRat))
        | none => Except.error ()) = Except.ok (some (pats.map f32ToRat))
    rw [show (encodeVectorBytes pats).isEmpty = false from rfl, if_neg (by simp), hdec]
    show Except.ok (if (pats.map f32ToRat).isEmpty then none else some (pats.map f32ToRat))
      = Except.ok (some (pats.map f32ToRat))
    rw [if_neg (by simp [List.isEmpty_iff, hne])]

/-- Witness for C6 at a singleton list and the float32 patterns of
1.0, 2.0 and 0.5. -/
theorem vector_decoding_representations_witness :
    decodeContentEmbedding (PgVal.vlist [(1 : ℚ)]) = .ok (some [(1 : ℚ)]) ∧
    decodeContentEmbedding
        (PgVal.vbytes (encodeVectorBytes [1065353216, 1073741824, 1056964608]))
      = .ok (some ([1065353216, 1073741824, 1056964608].map f32ToRat)) :=
  ⟨vector_decoding_representations.2.1 [(1 : ℚ)] (by decide),
   vector_decoding_representations.2.2.1 [1065353216, 1073741824, 1056964608]
     (by decide) (by decide)⟩

/-! ### typesense_sync.py: document assembly and run statistics -/

/-- The Typesense document built by `_prepare_typesense_document`. -/
structure TsDoc where
  unique_id : String
  published_at : Int
  fields : TsField → Option String
  extracted_at : Option Int
  published_year : Option Int
  published_month : Option Int
  content_embedding : Option (List ℚ)

/-- `TypesenseSyncManager._prepare_typesense_document`: required key and
epoch-second publish time (0 when NULL); optional fields kept only when
truthy, then stripped; extracted_at and the year/month facets only when
present; the embedding attached per `decodeContentEmbedding`. -/
def prepareTypesenseDocument (news : NewsRow) : Except Unit TsDoc :=
  match decodeContentEmbedding news.content_embedding with
  | .error e => .error e
  | .ok emb =>
    .ok
      { unique_id := news.unique_id
        published_at :=
          match news.published_at with
          | some t => t.epoch
          | none => 0
        fields := fun f =>
          match news.getField f with
          | some s => if s = "" then none else some (pyStrip s)
          | none => none
        extracted_at :=
          match news.extracted_at with
          | some t => some t.epoch
          | none => none
        published_year :=
          match news.published_at with
          | some t => some t.year
          | none => none
        published_month :=
          match news.published_at with
          | some t => some t.month
          | none => none
        content_embedding := emb }

theorem prepareTypesenseDocument_ok (news : NewsRow) (emb : Option (List ℚ))
    (hdec : decodeContentEmbedding news.content_embedding = .ok emb) :
    prepareTypesenseDocument news = .ok
      { unique_id := news.unique_id
        published_at :=
          match news.published_at with
          | some t => t.epoch
          | none => 0
        fields := fun f =>
          match news.getField f with
          | some s => if s = "" then none else some (pyStrip s)
          | none => none
        extracted_at :=
          match news.extracted_at with
          | some t => some t.epoch
          | none => none
        published_year :=
          match news.published_at with
          | some t => some t.year
          | none => none
        published_month :=
          match news.published_at with
          | some t => some t.month
          | none => none
        content_embedding := emb } := by
  unfold prepareTypesenseDocument
  rw [hdec]

/-- Claim C9: every assembled document contains the natural key and a
`published_at` equal to the publish timestamp in epoch seconds, with 0
substituted when the timestamp is null; each optional string field is
omitted when its source value is null or the empty string, while a
whitespace-only value is kept and trimmed to the empty string. -/
theorem prepare_document_fields (news : NewsRow) (doc : TsDoc)
    (h : prepareTypesenseDocument news = .ok doc) :
    doc.unique_id = news.unique_id ∧
    (∀ t, news.published_at = some t → doc.published_at = t.epoch) ∧
    (news.published_at = none → doc.published_at = 0) ∧
    (∀ f s, news.getField f = some s → s ≠ "" → doc.fields f = some (pyStrip s)) ∧
    (∀ f, news.getField f = none ∨ news.getField f = some "" → doc.fields f = none) ∧
    (∀ f s, news.getField f = some s → s ≠ "" → pyStrip s = "" →
      doc.fields f = some "") := by
  cases hdec : decodeContentEmbedding news.content_embedding with
  | error e =>
    rw [show prepareTypesenseDocument news = .error e by
      unfold prepareTypesenseDocument; rw [hdec]] at h
    cases h
  | ok emb =>
    rw [prepareTypesenseDocument_ok news emb hdec] at h
    have hdoc := Except.ok.inj h
    subst hdoc
    refine ⟨rfl, ?_, ?_, ?_, ?_, ?_⟩
    · intro t ht
      show (match news.published_at with
        | some t => t.epoch
        | none => 0) = t.epoch
      rw [ht]
    · intro ht
      show (match news.published_at with
        | some t => t.epoch
        | none => (0 : Int)) = (0 : Int)
      rw [ht]
    · intro f s hf hs
      show (match news.getField f with
        | some s => if s = "" then none else some (pyStrip s)
        | none => none) = some (pyStrip s)
      rw [hf]
      show (if s = "" then none else some (pyStrip s)) = some (pyStrip s)
      rw [if_neg hs]
    · intro f hf
      rcases hf with hf | hf
      · show (match news.getField f with
          | some s => if s = "" then none else some (pyStrip s)
          | none => none) = none
        rw [hf]
      · show (match news.getField f with
          | some s => if s = "" then none else some (pyStrip s)
          | none => none) = none
        rw [hf]
        show (if ("" : String) = "" then none else some (pyStrip "")) = none
        rw [if_pos rfl]
    · intro f s hf hs hstrip
      show (match news.getField f with
        | some s => if s = "" then none else some (pyStrip s)
        | none => none) = some ""
      rw [hf]
      show (if s = "" then none else some (pyStrip s)) = some ""
      rw [if_neg hs, hstrip]

/-- The sample row for the C9 witness: a whitespace-only title, an empty
category, an absent summary. -/
def sampleRow : NewsRow :=
  { unique_id := "news-1"
    title := some "   "
    category := some ""
    url := some " http://x "
    published_at := some ⟨1735689700, 2025, 1⟩ }

/-- Witness for C9 at `sampleRow`: the whitespace-only title is kept as the
empty string, the empty category is omitted, the url is trimmed, and
`published_at` carries the epoch seconds. -/
theorem prepare_document_fields_witness :
    ((prepareTypesenseDocument sampleRow).toOption.get (by decide)).unique_id
      = sampleRow.unique_id ∧
    ((prepareTypesenseDocument sampleRow).toOption.get (by decide)).fields TsField.title
      = some "" := by
  have h : prepareTypesenseDocument sampleRow
      = .ok ((prepareTypesenseDocument sampleRow).toOption.get (by decide)) := rfl
  obtain ⟨h1, _, _, _, _, h6⟩ :=
    prepare_document_fields sampleRow
      ((prepareTypesenseDocument sampleRow).toOption.get (by decide)) h
  exact ⟨h1, h6 TsField.title "   " rfl (by decide) (by decide)⟩

/-- Aggregate counters returned by both pipeline runs. Python integers are
unbounded and the sync loop can in principle subtract, so the counters are
integers. -/
structure RunTotals where
  processed : Int
  successful : Int
  failed : Int
deriving DecidableEq

/-- One loop iteration of `generate_embeddings`: on success
`_update_embeddings_batch` returns `len(batch)`, on any exception the whole
batch is counted as failed; `processed` always advances by `len(batch)`.
`batchOk` abstracts the outcome of the API call plus database update. -/
def generateStep (batchOk : List NewsRow → Bool) (acc : RunTotals)
    (batch : List NewsRow) : RunTotals :=
  if batchOk batch then
    { processed := acc.processed + batch.length
      successful := acc.successful + batch.length
      failed := acc.failed }
  else
    { processed := acc.processed + batch.length
      successful := acc.successful
      failed := acc.failed + batch.length }

/-- `EmbeddingGenerator.generate_embeddings`: fetch candidates, return zeros
when none, otherwise run the batch loop over the `i : i + batch_size`
slices. -/
def generateEmbeddings (rows : List NewsRow) (startD endD : Int) (bs : Nat)
    (maxRecords : Option Nat) (batchOk : List NewsRow → Bool) : RunTotals :=
  let records := fetchNewsWithoutEmbeddings rows startD endD maxRecords
  if records.isEmpty then ⟨0, 0, 0⟩
  else (sliceBatches records bs).foldl (generateStep batchOk) ⟨0, 0, 0⟩

/-- The `(successful, failed)` contribution of one upsert call in
`_upsert_documents_batch` and the surrounding loop: on an exception the
whole batch is failed; otherwise `successes = sum(1 for r in results if
r.get(success))` documents succeed and `len(batch) - successes` fail. -/
def upsertDelta (batch : List NewsRow) (resp : Except Unit (List Bool)) : Int × Int :=
  match resp with
  | .error _ => (0, (batch.length : Int))
  | .ok results =>
    let succ : Int := (results.countP (fun b => b) : Nat)
    (succ, (batch.length : Int) - succ)

/-- The `(successful, failed)` contribution of one batch of
`sync_embeddings`: an exception while preparing documents fails the whole
batch, otherwise the upsert outcome decides. `respFn` abstracts the
Typesense import response: one success flag per returned item. -/
def syncBatchDelta (respFn : List TsDoc → Except Unit (List Bool))
    (batch : List NewsRow) : Int × Int :=
  match batch.mapM prepareTypesenseDocument with
  | .error _ => (0, (batch.length : Int))
  | .ok docs => upsertDelta batch (respFn docs)

/-- One loop iteration of `sync_embeddings`: `processed` always advances by
`len(batch)`; `successful` and `failed` advance by the batch delta. -/
def syncStep (respFn : List TsDoc → Except Unit (List Bool)) (acc : RunTotals)
    (batch : List NewsRow) : RunTotals :=
  { processed := acc.processed + batch.length
    successful := acc.successful + (syncBatchDelta respFn batch).1
    failed := acc.failed + (syncBatchDelta respFn batch).2 }

/-- `TypesenseSyncManager.sync_embeddings`: resolve the watermark unless
`full_sync`, fetch the candidate rows, return zeros when none, otherwise run
the batch loop over the `i : i + batch_size` slices. -/
def syncEmbeddings (rows : List NewsRow) (log : List SyncLogEntry)
    (startD endD : Int) (fullSync : Bool) (bs : Nat) (maxRecords : Option Nat)
    (respFn : List TsDoc → Except Unit (List Bool)) : RunTotals :=
  let wm := if fullSync then none else getLastSyncTimestamp log
  let records := fetchNewsWithNewEmbeddings rows startD endD wm maxRecords
  if records.isEmpty then ⟨0, 0, 0⟩
  else (sliceBatches records bs).foldl (syncStep respFn) ⟨0, 0, 0⟩

theorem generateStep_counts (batchOk : List NewsRow → Bool) (acc : RunTotals)
    (b : List NewsRow) :
    (generateStep batchOk acc b).processed = acc.processed + b.length ∧
    (generateStep batchOk acc b).successful + (generateStep batchOk acc b).failed
      = acc.successful + acc.failed + b.length := by
  unfold generateStep
  by_cases h : batchOk b = true
  · rw [if_pos h]
    exact ⟨rfl, by ring⟩
  · rw [if_neg h]
    exact ⟨rfl, by ring⟩

theorem upsertDelta_sum (batch : List NewsRow) (resp : Except Unit (List Bool)) :
    (upsertDelta batch resp).1 + (upsertDelta batch resp).2 = batch.length := by
  cases resp with
  | error e => simp [upsertDelta]
  | ok results =>
    show ((results.countP (fun b => b) : Nat) : Int)
        + ((batch.length : Int) - ((results.countP (fun b => b) : Nat) : Int))
      = batch.length
    ring

theorem syncBatchDelta_sum (respFn : List TsDoc → Except Unit (List Bool))
    (batch : List NewsRow) :
    (syncBatchDelta respFn batch).1 + (syncBatchDelta respFn batch).2 = batch.length := by
  unfold syncBatchDelta
  cases hm : batch.mapM prepareTypesenseDocument with
  | error e => simp
  | ok docs => exact upsertDelta_sum batch (respFn docs)

theorem syncStep_counts (respFn : List TsDoc → Except Unit (List Bool))
    (acc : RunTotals) (batch : List NewsRow) :
    (syncStep respFn acc batch).processed = acc.processed + batch.length ∧
    (syncStep respFn acc batch).successful + (syncStep respFn acc batch).failed
      = acc.successful + acc.failed + batch.length := by
  refine ⟨rfl, ?_⟩
  show acc.successful + (syncBatchDelta respFn batch).1
      + (acc.failed + (syncBatchDelta respFn batch).2)
    = acc.successful + acc.failed + batch.length
  have := syncBatchDelta_sum respFn batch
  omega

theorem foldl_generateStep (batchOk : List NewsRow → Bool) :
    ∀ (batches : List (List NewsRow)) (acc : RunTotals),
      (batches.foldl (generateStep batchOk) acc).processed
          = acc.processed + ((batches.map List.length).sum : Int) ∧
      (batches.foldl (generateStep batchOk) acc).successful
            + (batches.foldl (generateStep batchOk) acc).failed
          = acc.successful + acc.failed + ((batches.map List.length).sum : Int) := by
  intro batches
  induction batches with
  | nil => intro acc; simp
  | cons b rest ih =>
    intro acc
    rw [List.foldl_cons]
    obtain ⟨ih1, ih2⟩ := ih (generateStep batchOk acc b)
    obtain ⟨hp, hsf⟩ := generateStep_counts batchOk acc b
    rw [List.map_cons, List.sum_cons]
    constructor
    · rw [ih1, hp]; push_cast; ring
    · rw [ih2, hsf]; push_cast; ring

theorem foldl_syncStep (respFn : List TsDoc → Except Unit (List Bool)) :
    ∀ (batches : List (List NewsRow)) (acc : RunTotals),
      (batches.foldl (syncStep respFn) acc).processed
          = acc.processed + ((batches.map List.length).sum : Int) ∧
      (batches.foldl (syncStep respFn) acc).successful
            + (batches.foldl (syncStep respFn) acc).failed
          = acc.successful + acc.failed + ((batches.map List.length).sum : Int) := by
  intro batches
  induction batches with
  | nil => intro acc; simp
  | cons b rest ih =>
    intro acc
    rw [List.foldl_cons]
    obtain ⟨ih1, ih2⟩ := ih (syncStep respFn acc b)
    obtain ⟨hp, hsf⟩ := syncStep_counts respFn acc b
    rw [List.map_cons, List.sum_cons]
    constructor
    · rw [ih1, hp]; push_cast; ring
    · rw [ih2, hsf]; push_cast; ring

theorem sliceBatches_length_sum {α : Type} (xs : List α) (bs : Nat) (hbs : 1 ≤ bs) :
    ((sliceBatches xs bs).map List.length).sum = xs.length := by
  rw [← List.length_flatten, sliceBatches_flatten xs bs hbs]

/-- Claim C1: for every run of `generate_embeddings` and of
`sync_embeddings`, the returned statistics satisfy
`processed = successful + failed`, and `processed` equals the number of
candidate records fetched before batching: no record is dropped or counted
twice across batches. -/
theorem run_totals_consistent (rows : List NewsRow) (log : List SyncLogEntry)
    (startD endD : Int) (bs : Nat) (maxRecords : Option Nat)
    (batchOk : List NewsRow → Bool)
    (fullSync : Bool) (respFn : List TsDoc → Except Unit (List Bool))
    (hbs : 1 ≤ bs) :
    (generateEmbeddings rows startD endD bs maxRecords batchOk).processed
        = (generateEmbeddings rows startD endD bs maxRecords batchOk).successful
          + (generateEmbeddings rows startD endD bs maxRecords batchOk).failed ∧
    (generateEmbeddings rows startD endD bs maxRecords batchOk).processed
        = ((fetchNewsWithoutEmbeddings rows startD endD maxRecords).length : Int) ∧
    (syncEmbeddings rows log startD endD fullSync bs maxRecords respFn).processed
        = (syncEmbeddings rows log startD endD fullSync bs maxRecords respFn).successful
          + (syncEmbeddings rows log startD endD fullSync bs maxRecords respFn).failed ∧
    (syncEmbeddings rows log startD endD fullSync bs maxRecords respFn).processed
        = ((fetchNewsWithNewEmbeddings rows startD endD
            (if fullSync then none else getLastSyncTimestamp log) maxRecords).length : Int) := by
  unfold generateEmbeddings syncEmbeddings
  constructor
  · by_cases h : (fetchNewsWithoutEmbeddings rows startD endD maxRecords).isEmpty
    · rw [if_pos h]; rfl
    · rw [if_neg h]
      obtain ⟨h1, h2⟩ := foldl_generateStep batchOk
        (sliceBatches (fetchNewsWithoutEmbeddings rows startD endD maxRecords) bs) ⟨0, 0, 0⟩
      rw [h1, h2]
      simp
  constructor
  · by_cases h : (fetchNewsWithoutEmbeddings rows startD endD maxRecords).isEmpty
    · rw [if_pos h]
      rw [List.isEmpty_iff] at h
      rw [h]
      rfl
    · rw [if_neg h]
      obtain ⟨h1, _⟩ := foldl_generateStep batchOk
        (sliceBatches (fetchNewsWithoutEmbeddings rows startD endD maxRecords) bs) ⟨0, 0, 0⟩
      rw [h1, sliceBatches_length_sum _ _ hbs]
      simp
  constructor
  · by_cases h : (fetchNewsWithNewEmbeddings rows startD endD
        (if fullSync then none else getLastSyncTimestamp log) maxRecords).isEmpty
    · rw [if_pos h]; rfl
    · rw [if_neg h]
      obtain ⟨h1, h2⟩ := foldl_syncStep respFn
        (sliceBatches (fetchNewsWithNewEmbeddings rows startD endD
          (if fullSync then none else getLastSyncTimestamp log) maxRecords) bs) ⟨0, 0, 0⟩
      rw [h1, h2]
      simp
  · by_cases h : (fetchNewsWithNewEmbeddings rows startD endD
        (if fullSync then none else getLastSyncTimestamp log) maxRecords).isEmpty
    · rw [if_pos h]
      rw [List.isEmpty_iff] at h
      rw [h]
      rfl
    · rw [if_neg h]
      obtain ⟨h1, _⟩ := foldl_syncStep respFn
        (sliceBatches (fetchNewsWithNewEmbeddings rows startD endD
          (if fullSync then none else getLastSyncTimestamp log) maxRecords) bs) ⟨0, 0, 0⟩
      rw [h1, sliceBatches_length_sum _ _ hbs]
      simp

/-! ### postgres_manager.py: PostgresManager.insert

A `news` row for the insert path is a column-indexed map so the ON CONFLICT
behaviour can be stated per column. `newsColumns` is the 21-entry `columns`
list of the source; `updated_at` is not in it and is only touched by the
conflict clause. -/

/-- The columns of the INSERT statement plus `updated_at`. -/
inductive NCol where
  | unique_id | agency_id
  | theme_l1_id | theme_l2_id | theme_l3_id | most_specific_theme_id
  | title | url | image_url | video_url | category | tags
  | content | editorial_lead | subtitle | summary
  | published_at | updated_datetime | extracted_at
  | agency_key | agency_name
  | updated_at
deriving DecidableEq

/-- The `columns` list of `PostgresManager.insert`, in source order. -/
def newsColumns : List NCol :=
  [.unique_id, .agency_id, .theme_l1_id, .theme_l2_id, .theme_l3_id,
   .most_specific_theme_id, .title, .url, .image_url, .video_url, .category,
   .tags, .content, .editorial_lead, .subtitle, .summary, .published_at,
   .updated_datetime, .extracted_at, .agency_key, .agency_name]

/-- A column value. -/
inductive Value where
  | vnull
  | vs (s : String)
  | vi (n : Int)
  | vtags (ts : List String)
deriving DecidableEq

/-- A row of values for the insert path. -/
def NRow := NCol → Value

/-- `update_cols = [c for c in columns if c not in [unique_id, agency_id,
published_at]]`. -/
def updateCols : List NCol :=
  newsColumns.filter (fun c => c ∉ [NCol.unique_id, NCol.agency_id, NCol.published_at])

/-- The de-duplication loop of `PostgresManager.insert`: keep a record only
when its `unique_id` has not been seen yet. -/
def dedupByUidAux (seen : List Value) : List NRow → List NRow
  | [] => []
  | n :: rest =>
    if n NCol.unique_id ∈ seen then dedupByUidAux seen rest
    else n :: dedupByUidAux (n NCol.unique_id :: seen) rest

/-- De-duplicate by `unique_id`, keeping the first occurrence. -/
def dedupByUniqueId (news : List NRow) : List NRow := dedupByUidAux [] news

/-- The row produced by `ON CONFLICT (unique_id) DO UPDATE SET
{c = EXCLUDED.c for c in update_cols}, updated_at = NOW()`: columns in
`update_cols` take the incoming value, `updated_at` takes the current time,
everything else keeps the stored value. -/
def mergeOnConflict (old new : NRow) (now : Value) : NRow := fun c =>
  if c ∈ updateCols then new c
  else if c = NCol.updated_at then now
  else old c

/-- One row of the multi-row INSERT executing against the running table
state: a conflicting key updates in place (DO UPDATE, counted) or is
skipped (DO NOTHING, not counted); a fresh key is appended and counted. -/
def insertRowStep (allowUpdate : Bool) (now : Value) (acc : List NRow × Nat)
    (n : NRow) : List NRow × Nat :=
  if acc.1.any (fun r => r NCol.unique_id = n NCol.unique_id) then
    if allowUpdate then
      (acc.1.map (fun r =>
        if r NCol.unique_id = n NCol.unique_id then mergeOnConflict r n now else r),
       acc.2 + 1)
    else (acc.1, acc.2)
  else (acc.1 ++ [n], acc.2 + 1)

/-- `PostgresManager.insert(news, allow_update)`: reject an empty list,
de-duplicate keeping first occurrences, then run the multi-row INSERT with
the configured conflict policy; returns the new table state and the
affected-row count. -/
def insertNews (db : List NRow) (news : List NRow) (allowUpdate : Bool)
    (now : Value) : Except Unit (List NRow × Nat) :=
  if news.isEmpty then .error ()
  else .ok ((dedupByUniqueId news).foldl (insertRowStep allowUpdate now) (db, 0))

/-- Rows of a table keyed `k`. -/
def countUid (db : List NRow) (k : Value) : Nat :=
  db.countP (fun r => r NCol.unique_id = k)

theorem dedupAux_filter (k : Value) :
    ∀ (l : List NRow) (seen : List Value),
      (dedupByUidAux seen l).filter (fun r => r NCol.unique_id = k)
        = if k ∈ seen then []
          else (l.filter (fun r => r NCol.unique_id = k)).take 1 := by
  intro l
  induction l with
  | nil =>
    intro seen
    by_cases h : k ∈ seen <;> simp [dedupByUidAux, h]
  | cons n rest ih =>
    intro seen
    unfold dedupByUidAux
    by_cases hseen : n NCol.unique_id ∈ seen
    · rw [if_pos hseen, ih seen]
      by_cases hk : k ∈ seen
      · rw [if_pos hk, if_pos hk]
      · rw [if_neg hk, if_neg hk]
        have hne : ¬(n NCol.unique_id = k) := fun he => hk (he ▸ hseen)
        rw [List.filter_cons_of_neg (by simpa using hne)]
    · rw [if_neg hseen]
      by_cases hk : n NCol.unique_id = k
      · rw [List.filter_cons_of_pos (by simpa using hk), ih]
        have hkseen : ¬(k ∈ seen) := fun hin => hseen (hk ▸ hin)
        rw [if_pos (by rw [hk]; exact List.mem_cons_self _ _), if_neg hkseen,
          List.filter_cons_of_pos (by simpa using hk)]
        rfl
      · rw [List.filter_cons_of_neg (by simpa using hk), ih]
        have hmem : (k ∈ n NCol.unique_id :: seen) ↔ k ∈ seen := by
          rw [List.mem_cons]
          constructor
          · intro h
            rcases h with h | h
            · exact absurd h.symm hk
            · exact h
          · exact Or.inr
        by_cases hks : k ∈ seen
        · rw [if_pos (hmem.mpr hks), if_pos hks]
        · rw [if_neg (fun hc => hks (hmem.mp hc)), if_neg hks,
            List.filter_cons_of_neg (by simpa using hk)]

theorem dedupAux_uids (l : List NRow) :
    ∀ (seen : List Value),
      ((dedupByUidAux seen l).map (fun r => r NCol.unique_id)).Nodup ∧
      ∀ v ∈ (dedupByUidAux seen l).map (fun r => r NCol.unique_id), v ∉ seen := by
  induction l with
  | nil => intro seen; simp [dedupByUidAux]
  | cons n rest ih =>
    intro seen
    unfold dedupByUidAux
    by_cases hseen : n NCol.unique_id ∈ seen
    · rw [if_pos hseen]
      exact ih seen
    · rw [if_neg hseen]
      obtain ⟨hnd, havoid⟩ := ih (n NCol.unique_id :: seen)
      rw [List.map_cons]
      constructor
      · rw [List.nodup_cons]
        exact ⟨fun hin => (havoid _ hin) (List.mem_cons_self _ _), hnd⟩
      · intro v hv
        rcases List.mem_cons.mp hv with hv | hv
        · exact hv ▸ hseen
        · exact fun hvs => (havoid v hv) (List.mem_cons_of_mem _ hvs)

theorem foldl_insert_count (now : Value) (k : Value) :
    ∀ (l : List NRow) (db : List NRow) (c0 : Nat),
      ((l.map (fun r => r NCol.unique_id)).Nodup) →
      countUid ((l.foldl (insertRowStep false now) (db, c0)).1) k
        = countUid db k
          + (if l.any (fun r => r NCol.unique_id = k)
              && !(db.any (fun r => r NCol.unique_id = k)) then 1 else 0) := by
  intro l
  induction l with
  | nil =>
    intro db c0 _
    simp
  | cons n rest ih =>
    intro db c0 hnd
    rw [List.map_cons, List.nodup_cons] at hnd
    rw [List.foldl_cons]
    unfold insertRowStep
    by_cases hdb : db.any (fun r => r NCol.unique_id = n NCol.unique_id) = true
    · rw [if_pos hdb]
      show countUid ((rest.foldl (insertRowStep false now) (db, c0)).1) k = _
      rw [ih db c0 hnd.2]
      by_cases hk : n NCol.unique_id = k
      · have hdbk : db.any (fun r => r NCol.unique_id = k) = true := hk ▸ hdb
        rw [hdbk]
        simp
      · have hany : (n :: rest).any (fun r => r NCol.unique_id = k)
            = rest.any (fun r => r NCol.unique_id = k) := by
          rw [List.any_cons]
          simp [hk]
        rw [hany]
    · rw [if_neg hdb]
      show countUid ((rest.foldl (insertRowStep false now) (db ++ [n], c0 + 1)).1) k = _
      rw [ih (db ++ [n]) (c0 + 1) hnd.2]
      by_cases hk : n NCol.unique_id = k
      · have hrest : rest.any (fun r => r NCol.unique_id = k) = false := by
          rw [List.any_eq_false]
          intro r hr
          simp only [decide_eq_true_eq]
          intro hrk
          exact hnd.1 (by
            rw [hk, ← hrk]
            exact List.mem_map_of_mem _ hr)
        have hcount : countUid (db ++ [n]) k = countUid db k + 1 := by
          unfold countUid
          rw [List.countP_append]
          simp [hk]
        have hdbk : db.any (fun r => r NCol.unique_id = k) = false := by
          cases hc : db.any (fun r => r NCol.unique_id = k) with
          | false => rfl
          | true => exact absurd (hk ▸ hc) (by simpa using hdb)
        rw [hrest, hcount, hdbk]
        have hanyc : (n :: rest).any (fun r => r NCol.unique_id = k) = true := by
          rw [List.any_cons]
          simp [hk]
        rw [hanyc]
        simp
      · have hcount : countUid (db ++ [n]) k = countUid db k := by
          unfold countUid
          rw [List.countP_append]
          simp [hk]
        have hdbapp : (db ++ [n]).any (fun r => r NCol.unique_id = k)
            = db.any (fun r => r NCol.unique_id = k) := by
          rw [List.any_append]
          simp [hk]
        have hany : (n :: rest).any (fun r => r NCol.unique_id = k)
            = rest.any (fun r => r NCol.unique_id = k) := by
          rw [List.any_cons]
          simp [hk]
        rw [hcount, hdbapp, hany]

/-- Claim C4: `PostgresManager.insert` rejects the empty list with a
ValidationError; it de-duplicates the input by natural key keeping the first
occurrence of each key; and inserting a non-empty list in which some records
share a key into a table without that key yields exactly one row for that
key. -/
theorem insert_deduplicates (db news : List NRow) (k now : Value) :
    (∀ a : Bool, insertNews db [] a now = .error ()) ∧
    ((dedupByUniqueId news).filter (fun r => r NCol.unique_id = k)
      = (news.filter (fun r => r NCol.unique_id = k)).take 1) ∧
    (news ≠ [] →
      (∀ r ∈ db, ¬(r NCol.unique_id = k)) →
      (∃ r ∈ news, r NCol.unique_id = k) →
      (insertNews db news false now).map (fun p => countUid p.1 k) = .ok 1) := by
  have hfilterded : (dedupByUniqueId news).filter (fun r => r NCol.unique_id = k)
      = (news.filter (fun r => r NCol.unique_id = k)).take 1 := by
    unfold dedupByUniqueId
    rw [dedupAux_filter k news [], if_neg (by simp)]
  refine ⟨fun a => rfl, hfilterded, ?_⟩
  intro hne hdb hex
  unfold insertNews
  rw [if_neg (by simpa [List.isEmpty_iff] using hne)]
  show Except.ok (countUid ((dedupByUniqueId news).foldl
    (insertRowStep false now) (db, 0)).1 k) = Except.ok 1
  have hnd := (dedupAux_uids news []).1
  have hcount := foldl_insert_count now k (dedupByUniqueId news) db 0 hnd
  have hdb0 : countUid db k = 0 := by
    unfold countUid
    rw [List.countP_eq_zero]
    intro r hr
    simpa using hdb r hr
  have hdbany : db.any (fun r => r NCol.unique_id = k) = false := by
    rw [List.any_eq_false]
    intro r hr
    simpa using hdb r hr
  have hdedany : (dedupByUniqueId news).any (fun r => r NCol.unique_id = k) = true := by
    rw [List.any_eq_true]
    obtain ⟨r, hr, hrk⟩ := hex
    have hmemf : r ∈ news.filter (fun q => q NCol.unique_id = k) :=
      List.mem_filter.mpr ⟨hr, by simpa using hrk⟩
    cases hf : news.filter (fun q => q NCol.unique_id = k) with
    | nil => rw [hf] at hmemf; cases hmemf
    | cons a t =>
      have hone : (dedupByUniqueId news).filter (fun q => q NCol.unique_id = k) = [a] := by
        rw [hfilterded, hf]
        rfl
      have hamem : a ∈ (dedupByUniqueId news).filter (fun q => q NCol.unique_id = k) := by
        rw [hone]
        simp
      obtain ⟨ha1, ha2⟩ := List.mem_filter.mp hamem
      exact ⟨a, ha1, ha2⟩
  rw [hcount, hdb0, hdbany, hdedany]
  simp

/-- First duplicate row for the C4 witness. -/
def rowA : NRow := fun c =>
  match c with
  | NCol.unique_id => Value.vs "a"
  | _ => Value.vnull

/-- Second duplicate row for the C4 witness, sharing the key of `rowA`. -/
def rowA2 : NRow := fun c =>
  match c with
  | NCol.unique_id => Value.vs "a"
  | NCol.title => Value.vs "t2"
  | _ => Value.vnull

/-- Witness for C4: inserting two records keyed `a` into an empty table
leaves exactly one row keyed `a`. -/
theorem insert_deduplicates_witness :
    (insertNews [] [rowA, rowA2] false Value.vnull).map
      (fun p => countUid p.1 (Value.vs "a")) = .ok 1 :=
  (insert_deduplicates [] [rowA, rowA2] (Value.vs "a") Value.vnull).2.2
    (List.cons_ne_nil _ _)
    (fun r hr => absurd hr (List.not_mem_nil r))
    ⟨rowA, by simp, rfl⟩

/-- Claim C8: with `allow_update`, a conflicting record has every insert
column overwritten by the incoming values except the natural key, the parent
agency reference and the publish timestamp, which keep their stored values,
and the mutation timestamp `updated_at` is refreshed to the current time. -/
theorem conflict_update_semantics (old n : NRow) (now : Value) :
    (∀ c ∈ updateCols, mergeOnConflict old n now c = n c) ∧
    (∀ c, c ∈ updateCols ↔ (c ∈ newsColumns ∧ c ≠ NCol.unique_id ∧
      c ≠ NCol.agency_id ∧ c ≠ NCol.published_at)) ∧
    mergeOnConflict old n now NCol.unique_id = old NCol.unique_id ∧
    mergeOnConflict old n now NCol.agency_id = old NCol.agency_id ∧
    mergeOnConflict old n now NCol.published_at = old NCol.published_at ∧
    mergeOnConflict old n now NCol.updated_at = now ∧
    (old NCol.unique_id = n NCol.unique_id →
      insertNews [old] [n] true now = .ok ([mergeOnConflict old n now], 1)) := by
  refine ⟨?_, ?_, ?_, ?_, ?_, ?_, ?_⟩
  · intro c hc
    unfold mergeOnConflict
    rw [if_pos hc]
  · intro c
    unfold updateCols
    rw [List.mem_filter]
    simp [and_assoc]
  · unfold mergeOnConflict
    rw [if_neg (by decide), if_neg (by decide)]
  · unfold mergeOnConflict
    rw [if_neg (by decide), if_neg (by decide)]
  · unfold mergeOnConflict
    rw [if_neg (by decide), if_neg (by decide)]
  · unfold mergeOnConflict
    rw [if_neg (by decide), if_pos rfl]
  · intro h
    unfold insertNews
    rw [if_neg (by simp)]
    have hded : dedupByUniqueId [n] = [n] := rfl
    rw [hded, List.foldl_cons, List.foldl_nil]
    unfold insertRowStep
    rw [if_pos (by simp [h])]
    show Except.ok (([old].map (fun r =>
        if r NCol.unique_id = n NCol.unique_id then mergeOnConflict r n now else r)),
      0 + 1) = Except.ok ([mergeOnConflict old n now], 1)
    rw [List.map_cons, List.map_nil, if_pos h]

/-- Stored row for the C8 witness. -/
def oldRowW : NRow := fun c =>
  match c with
  | NCol.unique_id => Value.vs "k"
  | NCol.agency_id => Value.vi 1
  | NCol.published_at => Value.vi 100
  | _ => Value.vs "old"

/-- Incoming row for the C8 witness, conflicting on the key. -/
def newRowW : NRow := fun c =>
  match c with
  | NCol.unique_id => Value.vs "k"
  | _ => Value.vs "new"

/-- Witness for C8 on a one-row table and a conflicting record. -/
theorem conflict_update_semantics_witness :
    insertNews [oldRowW] [newRowW] true (Value.vi 999)
      = .ok ([mergeOnConflict oldRowW newRowW (Value.vi 999)], 1) :=
  (conflict_update_semantics oldRowW newRowW (Value.vi 999)).2.2.2.2.2.2 rfl

/-! ### storage_adapter.py: StorageAdapter.insert and StorageAdapter.update

The two write paths have identical control flow: each backend selected by
the mode is attempted inside its own try/except, errors are collected, and
after both attempts a single decision raises or returns. The outcome of each
backend call is environment input, an `Except` value; the HuggingFace path
reports no row count (the source substitutes `total_records`), the Postgres
path returns one. -/

/-- The StorageBackend enum. -/
inductive Backend where
  | huggingface
  | postgres
  | dualWrite
deriving DecidableEq

/-- Whether the HuggingFace backend is attempted for a write. -/
def attemptsHf (mode : Backend) : Bool :=
  mode = Backend.huggingface ∨ mode = Backend.dualWrite

/-- Whether the Postgres backend is attempted for a write. -/
def attemptsPg (mode : Backend) : Bool :=
  mode = Backend.postgres ∨ mode = Backend.dualWrite

/-- `StorageAdapter.insert` (and, with the same flow, `update`): run the
selected backends, collect errors, then in dual mode raise only when both
attempted backends failed, and in a single-backend mode raise on the single
collected error. Returns the count reported by the last successful backend
(Postgres wins when attempted and successful). -/
def adapterWrite (mode : Backend) (total : Nat) (hf : Except String Unit)
    (pg : Except String Nat) : List Backend × Except String Nat :=
  let attempted : List Backend :=
    (if attemptsHf mode then [Backend.huggingface] else [])
      ++ (if attemptsPg mode then [Backend.postgres] else [])
  let hfOut : List String × Nat :=
    if attemptsHf mode then
      match hf with
      | .ok _ => ([], total)
      | .error e => ([e], 0)
    else ([], 0)
  let pgOut : List String × Option Nat :=
    if attemptsPg mode then
      match pg with
      | .ok m => ([], some m)
      | .error e => ([e], none)
    else ([], none)
  let inserted : Nat :=
    match pgOut.2 with
    | some m => m
    | none => hfOut.2
  let errs := hfOut.1 ++ pgOut.1
  let result : Except String Nat :=
    if errs.isEmpty then .ok inserted
    else if mode = Backend.dualWrite then
      if errs.length = 2 then .error "all backends failed" else .ok inserted
    else .error "write failed"
  (attempted, result)

/-- Boolean success of an adapter write. -/
def writeOk : Except String Nat → Bool
  | .ok _ => true
  | .error _ => false

/-- Boolean success of a backend call. -/
def callOk {α : Type} : Except String α → Bool
  | .ok _ => true
  | .error _ => false

/-- Claim C7: in dual-write mode both backends are attempted unconditionally
and the write succeeds exactly when at least one backend succeeds (raising
an aggregate error exactly when both fail); in a single-backend mode only
that backend is attempted and its failure propagates to the caller. -/
theorem adapter_write_dispatch (total : Nat) (hf : Except String Unit)
    (pg : Except String Nat) :
    ((adapterWrite Backend.dualWrite total hf pg).1
      = [Backend.huggingface, Backend.postgres]) ∧
    (writeOk (adapterWrite Backend.dualWrite total hf pg).2
      = (callOk hf || callOk pg)) ∧
    ((adapterWrite Backend.huggingface total hf pg).1 = [Backend.huggingface]) ∧
    (writeOk (adapterWrite Backend.huggingface total hf pg).2 = callOk hf) ∧
    ((adapterWrite Backend.postgres total hf pg).1 = [Backend.postgres]) ∧
    (writeOk (adapterWrite Backend.postgres total hf pg).2 = callOk pg) := by
  refine ⟨rfl, ?_, rfl, ?_, rfl, ?_⟩
  · cases hf with
    | ok u => cases pg with
      | ok m => rfl
      | error e => rfl
    | error e => cases pg with
      | ok m => rfl
      | error f => rfl
  · cases hf with
    | ok u => rfl
    | error e => rfl
  · cases pg with
    | ok m => rfl
    | error e => rfl

theorem foldl_max_mem (l : List Int) : ∀ a : Int, l.foldl max a ∈ a :: l := by
  induction l with
  | nil => intro a; simp
  | cons b rest ih =>
    intro a
    rw [List.foldl_cons]
    rcases List.mem_cons.mp (ih (max a b)) with hm | hm
    · rw [hm]
      rcases max_choice a b with h | h
      · rw [h]; simp
      · rw [h]; simp
    · exact List.mem_cons.mpr (Or.inr (List.mem_cons.mpr (Or.inr hm)))

theorem foldl_max_le (l : List Int) : ∀ a u : Int, u ∈ a :: l → u ≤ l.foldl max a := by
  induction l with
  | nil =>
    intro a u hu
    simp at hu
    simp [hu]
  | cons b rest ih =>
    intro a u hu
    rw [List.foldl_cons]
    have hseed : max a b ≤ List.foldl max (max a b) rest :=
      ih (max a b) (max a b) (List.mem_cons_self _ _)
    rcases List.mem_cons.mp hu with rfl | hu
    · exact le_trans (le_max_left u b) hseed
    · rcases List.mem_cons.mp hu with rfl | hu
      · exact le_trans (le_max_right a u) hseed
      · exact ih (max a b) u (List.mem_cons_of_mem _ hu)

theorem int_max?_spec (l : List Int) (t : Int) (h : l.max? = some t) :
    t ∈ l ∧ ∀ u ∈ l, u ≤ t := by
  cases l with
  | nil => cases h
  | cons a rest =>
    have ht : t = rest.foldl max a := by
      have : (a :: rest).max? = some (rest.foldl max a) := rfl
      rw [this] at h
      exact (Option.some.inj h).symm
    subst ht
    exact ⟨foldl_max_mem rest a, fun u hu => foldl_max_le rest a u hu⟩

/-- The two rows of the concrete watermark instance: both candidates in the
window, with `embedding_generated_at` at 999 and 1001 around the watermark
1000. -/
def wmProbeRow (uid : String) (egen : Int) : NewsRow :=
  { unique_id := uid
    published_at := some ⟨jan2025Epoch + 10, 2025, 1⟩
    content_embedding := PgVal.vlist [1]
    embedding_generated_at := some egen }

/-- Claim C5: the watermark is the maximum `completed_at` over sync_log
entries with the index-sync operation and completed status; when no such
entry exists the incremental run behaves exactly like a full sync; and with
an existing watermark t0 the incremental fetch selects exactly the candidate
rows whose `embedding_generated_at` is strictly greater than t0 — in the
concrete instance with watermark 1000, the row at 999 is excluded and the
row at 1001 is the only one processed. -/
theorem incremental_sync_watermark (log : List SyncLogEntry) (rows : List NewsRow)
    (startD endD t0 t : Int) :
    (getLastSyncTimestamp log = some t →
      t ∈ syncLogTimes log ∧ ∀ u ∈ syncLogTimes log, u ≤ t) ∧
    ((∀ e ∈ log, ¬(e.operation = "typesense_embeddings_sync" ∧ e.status = "completed")) →
      getLastSyncTimestamp log = none) ∧
    (getLastSyncTimestamp log = none →
      ∀ (bs : Nat) (maxRecords : Option Nat) (respFn : List TsDoc → Except Unit (List Bool)),
        syncEmbeddings rows log startD endD false bs maxRecords respFn
          = syncEmbeddings rows log startD endD true bs maxRecords respFn) ∧
    (∀ r, r ∈ fetchNewsWithNewEmbeddings rows startD endD (some t0) none ↔
      (r ∈ fetchNewsWithNewEmbeddings rows startD endD none none ∧
        (match r.embedding_generated_at with
          | some g => t0 < g
          | none => False))) ∧
    fetchNewsWithNewEmbeddings [wmProbeRow "older" 999, wmProbeRow "newer" 1001]
        jan2025Epoch jan2025Epoch (some 1000) none
      = [wmProbeRow "newer" 1001] := by
  refine ⟨int_max?_spec _ t, ?_, ?_, ?_, by decide⟩
  · intro hnone
    unfold getLastSyncTimestamp syncLogTimes
    have : log.filterMap (fun e =>
        if e.operation = "typesense_embeddings_sync" ∧ e.status = "completed"
        then some e.completed_at else none) = [] := by
      rw [List.filterMap_eq_nil_iff]
      intro e he
      rw [if_neg (hnone e he)]
    rw [this]
    rfl
  · intro hnone bs maxRecords respFn
    unfold syncEmbeddings
    rw [hnone]
    simp
  · intro r
    unfold fetchNewsWithNewEmbeddings pyLimit
    rw [mem_sortByPublishedDesc, mem_sortByPublishedDesc, List.mem_filter, List.mem_filter]
    constructor
    · intro ⟨hmem, hcond⟩
      rw [Bool.and_eq_true] at hcond
      refine ⟨⟨hmem, by rw [hcond.1]; rfl⟩, ?_⟩
      have := hcond.2
      unfold watermarkCond at this
      cases hg : r.embedding_generated_at with
      | none => rw [hg] at this; cases this
      | some g =>
        rw [hg] at this
        simpa using this
    · intro ⟨⟨hmem, hcond⟩, hwm⟩
      rw [Bool.and_eq_true] at hcond
      refine ⟨hmem, ?_⟩
      rw [Bool.and_eq_true]
      refine ⟨hcond.1, ?_⟩
      unfold watermarkCond
      cases hg : r.embedding_generated_at with
      | none => rw [hg] at hwm; cases hwm
      | some g =>
        rw [hg] at hwm
        simpa using hwm

/-- Witness for C5 on a one-entry log. -/
theorem incremental_sync_watermark_witness :
    1000 ∈ syncLogTimes [⟨"typesense_embeddings_sync", "completed", 1000⟩] ∧
    ∀ u ∈ syncLogTimes [⟨"typesense_embeddings_sync", "completed", 1000⟩], u ≤ 1000 :=
  (incremental_sync_watermark [⟨"typesense_embeddings_sync", "completed", 1000⟩]
    [] 0 0 0 1000).1 (by decide)

/-- Witness for C1 on a concrete two-row table, watermark log, batch size 1. -/
theorem run_totals_consistent_witness :
    (generateEmbeddings
        [{ unique_id := "a", published_at := some ⟨1735689700, 2025, 1⟩ },
         { unique_id := "b", published_at := some ⟨1735689800, 2025, 1⟩,
           content_embedding := PgVal.vlist [1] }]
        1735689600 1735689600 1 none (fun _ => true)).processed
      = ((fetchNewsWithoutEmbeddings
        [{ unique_id := "a", published_at := some ⟨1735689700, 2025, 1⟩ },
         { unique_id := "b", published_at := some ⟨1735689800, 2025, 1⟩,
           content_embedding := PgVal.vlist [1] }]
        1735689600 1735689600 none).length : Int) :=
  (run_totals_consistent
    [{ unique_id := "a", published_at := some ⟨1735689700, 2025, 1⟩ },
     { unique_id := "b", published_at := some ⟨1735689800, 2025, 1⟩,
       content_embedding := PgVal.vlist [1] }]
    [] 1735689600 1735689600 1 none (fun _ => true) false (fun _ => .ok [])
    (by decide)).2.1

end DataPlatform
